import Mathlib

/-!
Shallow embedding of the score-aggregation and cost-efficiency core of the
2026-CSAT dashboard (`web/src/utils/dataTransform.js`, together with the
record-lookup helper `getModelData` from `web/src/utils/dataLoader.js`).

JavaScript numbers are modelled as rationals (`ℚ`); JS objects used as
string-keyed dictionaries are modelled as association lists kept in
insertion order, which is exactly the enumeration order of `Object.keys` /
`Object.entries` for string keys.  JS `Array.prototype.find` is `List.find?`,
`Array.prototype.filter` is `List.filter`, and accumulating `forEach` loops
are `List.foldl`.  The JS field named `section` is called `sect` here
(`section` is a Lean keyword).
-/

/-- Splits a list of characters at every `'-'` (JS `String.prototype.split('-')`),
accumulating the current fragment in reverse. -/
def splitDashAux : List Char → List Char → List (List Char)
  | [], acc => [acc.reverse]
  | c :: cs, acc =>
      if c = '-' then acc.reverse :: splitDashAux cs []
      else splitDashAux cs (c :: acc)

/-- JS `s.split('-')`. -/
def splitDash (s : String) : List String :=
  (splitDashAux s.data []).map (fun l => String.mk l)

/-- JS `s.includes('-')`: the token is a compound `"parent-child"` token. -/
def isCompound (s : String) : Bool :=
  s.data.contains '-'

/-- The `parent` component of `const [parent, child] = s.split('-')`. -/
def parentOf (s : String) : String :=
  (splitDash s).headD ""

/-- The `child` component of `const [parent, child] = s.split('-')`. -/
def childOf (s : String) : String :=
  (splitDash s).getD 1 ""

/-- Appending a value to the entry of `p` in a string-keyed JS object holding
arrays (`obj[p].push(c)`, creating `obj[p] = [c]` first when absent).  New keys
go to the end, matching JS object insertion order. -/
def insertGroup (gs : List (String × List String)) (p : String) (c : String) :
    List (String × List String) :=
  match gs with
  | [] => [(p, [c])]
  | (q, cs) :: rest =>
      if q = p then (q, cs ++ [c]) :: rest
      else (q, cs) :: insertGroup rest p c

/-- Grouping a list of key/value pairs into a JS object of arrays, in
insertion order. -/
def groupPairs (l : List (String × String)) : List (String × List String) :=
  l.foldl (fun gs pc => insertGroup gs pc.1 pc.2) []

/-- The `childrenByParent` object built by `getFilteredTotal` (and the
`parentToChildren` object of `_normalizeSubjectFilter`): every compound token
contributes its `child` part under its `parent` key. -/
def groupChildren (tokens : List String) : List (String × List String) :=
  tokens.foldl
    (fun gs t => if isCompound t then insertGroup gs (parentOf t) (childOf t) else gs) []

/-- The `childrenByParent` object built by `getMaxScore`: compound tokens whose
parent already occurs as a bare token are skipped at insertion time, and the
full token (not just the child part) is stored. -/
def groupChildrenMax (tokens : List String) (parents : List String) :
    List (String × List String) :=
  tokens.foldl
    (fun gs t =>
      if isCompound t && !(parents.contains (parentOf t)) then
        insertGroup gs (parentOf t) t
      else gs) []

/-- JS dictionary read with zero default: `obj[key] || 0` (also used for
`list.find(e => e.name === key)?.score || 0` on name/score records, which are
modelled as pairs). -/
def objGetD (obj : List (String × ℚ)) (key : String) : ℚ :=
  ((obj.find? (fun e => e.1 == key)).map (fun e => e.2)).getD 0

/-- `SUBJECT_MAX_SCORES` from dataTransform.js. -/
def SUBJECT_MAX_SCORES : List (String × ℚ) :=
  [("국어", 100), ("수학", 100), ("영어", 100), ("한국사", 50), ("탐구", 100)]

/-- `ELECTIVE_NAME_MAP` from dataTransform.js: filter name → name used in the
data (`'사문' → '사회문화'`), identity elsewhere. -/
def electiveNameMap (c : String) : String :=
  if c = "사문" then "사회문화" else c

/-- A model's price entry (`d.price` with fields `input`, `output`, each
possibly absent, read as `?? 0`). -/
structure Price where
  input : Option ℚ
  output : Option ℚ
deriving DecidableEq

/-- One row of `all_results.json`: a (model, subject, section) record.  The JS
field `section` is named `sect`. -/
structure ResultRecord where
  model_name : String
  subject : String
  sect : String
  score : ℚ
  price : Option Price
deriving DecidableEq

/-- `getModelData` from dataLoader.js: all records of one model. -/
def getModelData (data : List ResultRecord) (modelName : String) : List ResultRecord :=
  data.filter (fun d => d.model_name == modelName)

/-- Result of `_calculateSubjectScore`: `{ common, electives, electiveAvg, total }`,
electives as (name, score) pairs. -/
structure SubjectDetail where
  common : ℚ
  electives : List (String × ℚ)
  electiveAvg : ℚ
  total : ℚ
deriving DecidableEq

/-- Result of `_calculateExplorationScore`: `{ subjects, average, total }`. -/
structure ExplorationDetail where
  subjects : List (String × ℚ)
  average : ℚ
  total : ℚ
deriving DecidableEq

/-- Result of `calculateOverallScore`. -/
structure CompositeScore where
  model : String
  korean : ℚ
  koreanDetail : SubjectDetail
  math : ℚ
  mathDetail : SubjectDetail
  english : ℚ
  history : ℚ
  exploration : ℚ
  explorationDetail : ExplorationDetail
  total : ℚ
deriving DecidableEq

/-- `_getScore`: score of a subject/section combination, `0` when absent. -/
def _getScore (modelData : List ResultRecord) (subject sect : String) : ℚ :=
  ((modelData.find? (fun d => d.subject == subject && d.sect == sect)).map
    (fun item => item.score)).getD 0

/-- `_calculateSubjectScore`: common section plus the average of the electives
that have a nonzero score. -/
def _calculateSubjectScore (modelData : List ResultRecord) (subject : String) :
    SubjectDetail :=
  let common := _getScore modelData subject "공통"
  let electiveNames := if subject = "국어" then ["화작", "언매"] else ["확통", "미적", "기하"]
  let electives := electiveNames.map (fun sect => (sect, _getScore modelData subject sect))
  let validElectives := electives.filter (fun e => 0 < e.2)
  let electiveAvg :=
    if 0 < validElectives.length then
      (validElectives.map (fun e => e.2)).sum / (validElectives.length : ℚ)
    else 0
  ⟨common, electives, electiveAvg, common + electiveAvg⟩

/-- `_calculateExplorationScore`: average of the exploration subjects that have
a nonzero score, times 2. -/
def _calculateExplorationScore (modelData : List ResultRecord) : ExplorationDetail :=
  let subjects :=
    (["물리1", "화학1", "생명1", "사회문화"]).map
      (fun subj => (subj, _getScore modelData subj "탐구"))
  let validSubjects := subjects.filter (fun s => 0 < s.2)
  let average :=
    if 0 < validSubjects.length then
      (validSubjects.map (fun s => s.2)).sum / (validSubjects.length : ℚ)
    else 0
  ⟨subjects, average, average * 2⟩

/-- `calculateOverallScore`: the per-model composite score out of 450. -/
def calculateOverallScore (data : List ResultRecord) (modelName : String) :
    CompositeScore :=
  let modelData := getModelData data modelName
  let korean := _calculateSubjectScore modelData "국어"
  let math := _calculateSubjectScore modelData "수학"
  let english := _getScore modelData "영어" "영어"
  let history := _getScore modelData "한국사" "한국사"
  let exploration := _calculateExplorationScore modelData
  let total := korean.total + math.total + english + history + exploration.total
  ⟨modelName, korean.total, korean, math.total, math, english, history,
    exploration.total, exploration, total⟩

/-- `scoreObj[SUBJECT_TO_FIELD[parent]] || 0`: the per-parent total selected by
the `SUBJECT_TO_FIELD` mapping, `0` for parents outside the mapping. -/
def subjectField (scoreObj : CompositeScore) (parent : String) : ℚ :=
  if parent = "국어" then scoreObj.korean
  else if parent = "수학" then scoreObj.math
  else if parent = "영어" then scoreObj.english
  else if parent = "한국사" then scoreObj.history
  else if parent = "탐구" then scoreObj.exploration
  else 0

/-- The body of `getFilteredTotal`'s elective-group loop: contribution of one
`(parent, children)` group of the `childrenByParent` object. -/
def groupTotal (scoreObj : CompositeScore) (parent : String) (children : List String) : ℚ :=
  if parent = "국어" ∨ parent = "수학" then
    let detail := if parent = "국어" then scoreObj.koreanDetail else scoreObj.mathDetail
    let electiveSum :=
      (children.map (fun c => objGetD detail.electives (electiveNameMap c))).sum
    detail.common + electiveSum / (children.length : ℚ)
  else if parent = "탐구" then
    let subjectSum :=
      (children.map (fun c => objGetD scoreObj.explorationDetail.subjects (electiveNameMap c))).sum
    if children.length = 1 then subjectSum
    else (subjectSum / (children.length : ℚ)) * 2
  else 0

/-- `getFilteredTotal` from dataTransform.js. -/
def getFilteredTotal (scoreObj : CompositeScore) (subjectFilter : List String) : ℚ :=
  if subjectFilter.isEmpty then scoreObj.total
  else
    let parents := subjectFilter.filter (fun s => !(isCompound s))
    let childrenByParent := groupChildren subjectFilter
    (parents.map (fun p => subjectField scoreObj p)).sum
      + (((childrenByParent.filter (fun g => !(parents.contains g.1))).map
          (fun g => groupTotal scoreObj g.1 g.2)).sum)

/-- `getMaxScore` from dataTransform.js. -/
def getMaxScore (subjectFilter : List String) : ℚ :=
  if subjectFilter.isEmpty then 450
  else
    let parents := subjectFilter.filter (fun s => !(isCompound s))
    let childrenByParent := groupChildrenMax subjectFilter parents
    (parents.map (fun p => objGetD SUBJECT_MAX_SCORES p)).sum
      + ((childrenByParent.map
          (fun g =>
            if g.1 = "탐구" then (if g.2.length = 1 then (50 : ℚ) else 100)
            else objGetD SUBJECT_MAX_SCORES g.1)).sum)

/-- `_normalizeSubjectFilter` from dataTransform.js: bare parents first (in
insertion order, deduplicated as a JS `Set`), then each compound group either
collapsed to its parent (≥ 2 children), kept as its single compound token
(1 child), or dropped (parent already bare). -/
def _normalizeSubjectFilter (subjectFilter : List String) : List String :=
  if subjectFilter.isEmpty then []
  else
    let parentToChildren := groupChildren subjectFilter
    let parentSubjects :=
      subjectFilter.foldl
        (fun acc t => if !(isCompound t) && !(acc.contains t) then acc ++ [t] else acc) []
    parentSubjects ++
      parentToChildren.filterMap
        (fun g =>
          if parentSubjects.contains g.1 then none
          else if 2 ≤ g.2.length then some g.1
          else some (g.1 ++ "-" ++ g.2.headD ""))

/-- `calculateAllModelScores`: per-model composite scores, with `total`
replaced by the filtered total when a filter is active, sorted descending by
`total` (the JS comparator `(a, b) => b.total - a.total`; JS `sort` is stable,
as is `mergeSort`). -/
def calculateAllModelScores (data : List ResultRecord) (models : List String)
    (subjectFilter : List String) : List CompositeScore :=
  (models.map (fun model =>
    let scores := calculateOverallScore data model
    if 0 < subjectFilter.length then
      { scores with total := getFilteredTotal scores subjectFilter }
    else scores)).mergeSort (fun a b => decide (b.total ≤ a.total))

/-- One section's entry of `token_usage.json` (`{input_tokens, output_tokens}`). -/
structure SectionUsage where
  input_tokens : ℚ
  output_tokens : ℚ
deriving DecidableEq

/-- One model's entry of `token_usage.json`; `sections` is `none` when the
model has no per-section breakdown. -/
structure ModelUsage where
  total_input_tokens : ℚ
  total_output_tokens : ℚ
  sections : Option (List (String × SectionUsage))
deriving DecidableEq

/-- The JS empty object `{}` used when a model is absent from `tokenUsage`:
all numeric reads default to 0, `sections` is absent. -/
def emptyUsage : ModelUsage := ⟨0, 0, none⟩

/-- A row of `getCostData` before the efficiency pass (step 1 of the source). -/
structure CostRowBase where
  model : String
  score : ℚ
  inputPrice : ℚ
  outputPrice : ℚ
  inputTokens : ℚ
  outputTokens : ℚ
  totalCost : ℚ
deriving DecidableEq

/-- A finished row of `getCostData` (step 2 adds `efficiency`). -/
structure CostRow extends CostRowBase where
  efficiency : ℚ
deriving DecidableEq

/-- The `priceMap` built by `getCostData`: first record of each model carrying
a `price` wins; absent components read as `?? 0`. -/
def buildPriceMap (data : List ResultRecord) : List (String × (ℚ × ℚ)) :=
  data.foldl
    (fun priceMap d =>
      if (priceMap.find? (fun e => e.1 == d.model_name)).isNone then
        match d.price with
        | some p => priceMap ++ [(d.model_name, (p.input.getD 0, p.output.getD 0))]
        | none => priceMap
      else priceMap) []

/-- `priceMap[score.model] || { input: 0, output: 0 }`. -/
def lookupPrice (priceMap : List (String × (ℚ × ℚ))) (model : String) : ℚ × ℚ :=
  ((priceMap.find? (fun e => e.1 == model)).map (fun e => e.2)).getD (0, 0)

/-- `tokenUsage[score.model] || {}`. -/
def lookupUsage (tokenUsage : List (String × ModelUsage)) (model : String) : ModelUsage :=
  ((tokenUsage.find? (fun e => e.1 == model)).map (fun e => e.2)).getD emptyUsage

/-- The section-key test of `getCostData`:
`sectionKey.startsWith(subject + '-') || sectionKey === subject`, where
`subject` ranges over the raw filter tokens. -/
def keyMatches (sectionKey subject : String) : Bool :=
  (subject ++ "-").data.isPrefixOf sectionKey.data || sectionKey == subject

/-- The nested `forEach` of `getCostData` accumulating (input, output) tokens
of every section entry matching any filter token. -/
def filteredTokens (secs : List (String × SectionUsage)) (subjectFilter : List String) :
    ℚ × ℚ :=
  subjectFilter.foldl
    (fun acc subject =>
      secs.foldl
        (fun acc2 kv =>
          if keyMatches kv.1 subject then
            (acc2.1 + kv.2.input_tokens, acc2.2 + kv.2.output_tokens)
          else acc2) acc) (0, 0)

/-- Step 1 of `getCostData` for one score row: price lookup, token totals
(filtered or global), and the actual dollar cost (`tokens × price / 1e6`). -/
def costRowFor (priceMap : List (String × (ℚ × ℚ)))
    (tokenUsage : List (String × ModelUsage)) (subjectFilter : List String)
    (score : CompositeScore) : CostRowBase :=
  let price := lookupPrice priceMap score.model
  let usage := lookupUsage tokenUsage score.model
  let tokens : ℚ × ℚ :=
    if 0 < subjectFilter.length then
      match usage.sections with
      | none => (0, 0)
      | some secs => filteredTokens secs subjectFilter
    else (usage.total_input_tokens, usage.total_output_tokens)
  let inputCostActual := tokens.1 * (price.1 / 1000000)
  let outputCostActual := tokens.2 * (price.2 / 1000000)
  ⟨score.model, score.total, price.1, price.2, tokens.1, tokens.2,
    inputCostActual + outputCostActual⟩

/-- `getCostData` from dataTransform.js.  `Math.max(...positiveCosts, 1)` is
the fold of `max` over the positive costs starting from `1`; the trailing
`.filter(Boolean)` of the source keeps every row (objects are truthy) and is
omitted.  `0.7` and `0.3` are the source's efficiency weights. -/
def getCostData (data : List ResultRecord) (overallScores : List CompositeScore)
    (tokenUsage : List (String × ModelUsage)) (subjectFilter : List String) :
    List CostRow :=
  let priceMap := buildPriceMap data
  let results := overallScores.map (costRowFor priceMap tokenUsage subjectFilter)
  let maxCost := ((results.map (fun r => r.totalCost)).filter (fun c => 0 < c)).foldl max 1
  let SCORE_MAX := getMaxScore subjectFilter
  results.map
    (fun r =>
      if r.totalCost ≤ 0 then ⟨r, 0⟩
      else
        let scoreNorm := max 0 (min 1 (r.score / SCORE_MAX))
        let costNorm := r.totalCost / maxCost
        ⟨r, (scoreNorm * (7 / 10) + (1 - costNorm) * (3 / 10)) * 100⟩)

/-!
## Theory of the insertion-order grouping

`groupPairs` models a JS object of arrays built by pushing values under string
keys.  Its keys are the distinct keys of the input in order, and the entry of a
key collects exactly the values pushed under it, in order.
-/

theorem groupPairs_concat (l : List (String × String)) (pc : String × String) :
    groupPairs (l ++ [pc]) = insertGroup (groupPairs l) pc.1 pc.2 := by
  simp [groupPairs, List.foldl_append]

theorem insertGroup_keys (gs : List (String × List String)) (p c : String) :
    (insertGroup gs p c).map Prod.fst =
      if p ∈ gs.map Prod.fst then gs.map Prod.fst else gs.map Prod.fst ++ [p] := by
  induction gs with
  | nil => simp [insertGroup]
  | cons g rest ih =>
      obtain ⟨q, cs⟩ := g
      by_cases h : q = p
      · subst h
        simp [insertGroup]
      · by_cases hm : p ∈ rest.map Prod.fst <;>
          simp [insertGroup, h, ih, hm, Ne.symm h]

theorem groupPairs_keys_nodup (l : List (String × String)) :
    ((groupPairs l).map Prod.fst).Nodup := by
  induction l using List.reverseRecOn with
  | nil => simp [groupPairs]
  | append_singleton xs pc ih =>
      rw [groupPairs_concat, insertGroup_keys]
      by_cases h : pc.1 ∈ (groupPairs xs).map Prod.fst
      · simpa [h] using ih
      · simp [h, ih, List.Nodup.append, List.disjoint_singleton]

theorem groupPairs_mem_keys (l : List (String × String)) :
    ∀ p, p ∈ (groupPairs l).map Prod.fst ↔ p ∈ l.map Prod.fst := by
  induction l using List.reverseRecOn with
  | nil => simp [groupPairs]
  | append_singleton xs pc ih =>
      intro p
      rw [groupPairs_concat, insertGroup_keys]
      by_cases h : pc.1 ∈ (groupPairs xs).map Prod.fst
      · have h' : pc.1 ∈ xs.map Prod.fst := (ih pc.1).mp h
        simp only [if_pos h, List.map_append, List.mem_append, List.map_cons,
          List.map_nil, List.mem_singleton, ih p]
        constructor
        · exact fun hp => Or.inl hp
        · rintro (hp | rfl)
          · exact hp
          · exact h'
      · simp [if_neg h, ih p]

theorem mem_insertGroup_of_ne (gs : List (String × List String)) (p q c : String)
    (cs : List String) (h : p ≠ q) :
    ((p, cs) ∈ insertGroup gs q c) ↔ (p, cs) ∈ gs := by
  induction gs with
  | nil => simp [insertGroup, h]
  | cons g rest ih =>
      obtain ⟨r, ds⟩ := g
      by_cases hr : r = q
      · subst hr
        simp [insertGroup, h]
      · simp [insertGroup, hr, ih]

theorem insertGroup_cons_self (q c : String) (ds : List String)
    (rest : List (String × List String)) :
    insertGroup ((q, ds) :: rest) q c = (q, ds ++ [c]) :: rest := by
  simp [insertGroup]

theorem insertGroup_cons_ne (r q c : String) (ds : List String)
    (rest : List (String × List String)) (h : r ≠ q) :
    insertGroup ((r, ds) :: rest) q c = (r, ds) :: insertGroup rest q c := by
  simp [insertGroup, h]

theorem mem_insertGroup_self (gs : List (String × List String)) (q c : String)
    (cs : List String) (hnd : (gs.map Prod.fst).Nodup) :
    ((q, cs) ∈ insertGroup gs q c) ↔
      ((q ∉ gs.map Prod.fst ∧ cs = [c]) ∨ ∃ cs0, (q, cs0) ∈ gs ∧ cs = cs0 ++ [c]) := by
  revert hnd
  induction gs with
  | nil =>
      intro hnd
      simp [insertGroup]
  | cons g rest ih =>
      intro hnd
      obtain ⟨r, ds⟩ := g
      simp only [List.map_cons, List.nodup_cons] at hnd
      by_cases hr : r = q
      · subst hr
        rw [insertGroup_cons_self]
        have hq : ∀ cs0, (r, cs0) ∉ rest := fun cs0 hmem =>
          hnd.1 (List.mem_map.mpr ⟨(r, cs0), hmem, rfl⟩)
        constructor
        · intro hmem
          rcases List.mem_cons.mp hmem with heq | hmem
          · rw [Prod.mk.injEq] at heq
            exact Or.inr ⟨ds, List.mem_cons_self _ _, heq.2⟩
          · exact absurd hmem (hq cs)
        · rintro (⟨hnk, rfl⟩ | ⟨cs0, hmem, rfl⟩)
          · simp at hnk
          · rcases List.mem_cons.mp hmem with heq | hmem
            · rw [Prod.mk.injEq] at heq
              rw [heq.2]
              exact List.mem_cons_self _ _
            · exact absurd hmem (hq cs0)
      · rw [insertGroup_cons_ne _ _ _ _ _ hr]
        constructor
        · intro hmem
          rcases List.mem_cons.mp hmem with heq | hmem
          · exact absurd (congrArg Prod.fst heq) (Ne.symm hr)
          · rcases (ih hnd.2).mp hmem with ⟨hnk, rfl⟩ | ⟨cs0, hm, rfl⟩
            · refine Or.inl ⟨?_, rfl⟩
              simp only [List.map_cons, List.mem_cons]
              rintro (h1 | h1)
              · exact (Ne.symm hr) h1
              · exact hnk h1
            · exact Or.inr ⟨cs0, List.mem_cons_of_mem _ hm, rfl⟩
        · rintro (⟨hnk, rfl⟩ | ⟨cs0, hm, rfl⟩)
          · refine List.mem_cons_of_mem _ ((ih hnd.2).mpr (Or.inl ⟨?_, rfl⟩))
            intro hk
            apply hnk
            simp [hk]
          · rcases List.mem_cons.mp hm with heq | hm
            · exact absurd (congrArg Prod.fst heq).symm hr
            · exact List.mem_cons_of_mem _ ((ih hnd.2).mpr (Or.inr ⟨cs0, hm, rfl⟩))

theorem groupPairs_entry (l : List (String × String)) :
    ∀ p cs, (p, cs) ∈ groupPairs l →
      cs = (l.filter (fun x => x.1 == p)).map Prod.snd := by
  induction l using List.reverseRecOn with
  | nil => simp [groupPairs]
  | append_singleton xs pc ih =>
      intro p cs hmem
      obtain ⟨q, c⟩ := pc
      rw [groupPairs_concat] at hmem
      by_cases hpq : p = q
      · subst hpq
        rcases (mem_insertGroup_self _ _ _ _ (groupPairs_keys_nodup xs)).mp hmem with
          ⟨hnk, rfl⟩ | ⟨cs0, hm, rfl⟩
        · have hx : xs.filter (fun x => x.1 == p) = [] := by
            rw [List.filter_eq_nil_iff]
            intro a ha hba
            exact hnk ((groupPairs_mem_keys xs p).mpr
              (List.mem_map.mpr ⟨a, ha, by simpa using hba⟩))
          simp [List.filter_append, hx]
        · have hcs0 := ih p cs0 hm
          simp [List.filter_append, ← hcs0]
      · have hmem2 : (p, cs) ∈ groupPairs xs :=
          (mem_insertGroup_of_ne _ _ _ _ _ hpq).mp hmem
        have hlast : (q == p) = false := beq_eq_false_iff_ne.mpr (Ne.symm hpq)
        have hfa : (xs ++ [(q, c)]).filter (fun x => x.1 == p) =
            xs.filter (fun x => x.1 == p) := by
          rw [List.filter_append]
          simp [hlast]
        rw [hfa]
        exact ih p cs hmem2

theorem groupChildren_eq_groupPairs (tokens : List String) :
    groupChildren tokens =
      groupPairs ((tokens.filter (fun t => isCompound t)).map
        (fun t => (parentOf t, childOf t))) := by
  rw [groupChildren, groupPairs]
  suffices h : ∀ gs : List (String × List String),
      tokens.foldl
        (fun gs t => if isCompound t then insertGroup gs (parentOf t) (childOf t) else gs) gs
      = ((tokens.filter (fun t => isCompound t)).map
          (fun t => (parentOf t, childOf t))).foldl
            (fun gs pc => insertGroup gs pc.1 pc.2) gs by
    exact h []
  induction tokens with
  | nil => intro gs; rfl
  | cons t ts ih =>
      intro gs
      by_cases h : isCompound t
      · simp only [List.foldl_cons, List.filter_cons, h, if_pos, List.map_cons]
        exact ih _
      · simp only [List.foldl_cons, List.filter_cons, h, if_neg, Bool.false_eq_true,
          if_false]
        exact ih gs

theorem groupChildrenMax_eq_groupPairs (tokens : List String) (parents : List String) :
    groupChildrenMax tokens parents =
      groupPairs ((tokens.filter
        (fun t => isCompound t && !(parents.contains (parentOf t)))).map
          (fun t => (parentOf t, t))) := by
  rw [groupChildrenMax, groupPairs]
  suffices h : ∀ gs : List (String × List String),
      tokens.foldl
        (fun gs t =>
          if isCompound t && !(parents.contains (parentOf t)) then
            insertGroup gs (parentOf t) t
          else gs) gs
      = ((tokens.filter
            (fun t => isCompound t && !(parents.contains (parentOf t)))).map
          (fun t => (parentOf t, t))).foldl
            (fun gs pc => insertGroup gs pc.1 pc.2) gs by
    exact h []
  induction tokens with
  | nil => intro gs; rfl
  | cons t ts ih =>
      intro gs
      by_cases h : (isCompound t && !(parents.contains (parentOf t))) = true
      · simp only [List.foldl_cons, List.filter_cons, h, if_pos, List.map_cons]
        exact ih _
      · simp only [List.foldl_cons, List.filter_cons, h, Bool.false_eq_true, if_false]
        exact ih gs

theorem sum_groupPairs_filter (l : List (String × String)) (Q : String → Bool)
    (F : String → ℕ → ℚ) :
    (((groupPairs l).filter (fun g => Q g.1)).map (fun g => F g.1 g.2.length)).sum
      = (((l.map Prod.fst).dedup.filter Q).map
          (fun p => F p ((l.filter (fun x => x.1 == p)).length))).sum := by
  have hstep : ∀ g ∈ (groupPairs l).filter (fun g => Q g.1),
      F g.1 g.2.length = F g.1 ((l.filter (fun x => x.1 == g.1)).length) := by
    intro g hg
    have hg2 : (g.1, g.2) ∈ groupPairs l := by
      simpa using (List.mem_filter.mp hg).1
    rw [groupPairs_entry l g.1 g.2 hg2, List.length_map]
  rw [List.map_congr_left hstep]
  have hkeys : ((groupPairs l).filter (fun g => Q g.1)).map
      (fun g => F g.1 ((l.filter (fun x => x.1 == g.1)).length))
      = (((groupPairs l).filter (fun g => Q g.1)).map Prod.fst).map
          (fun p => F p ((l.filter (fun x => x.1 == p)).length)) := by
    rw [List.map_map]
    rfl
  rw [hkeys]
  have hmf : ((groupPairs l).filter (fun g => Q g.1)).map Prod.fst
      = ((groupPairs l).map Prod.fst).filter Q := by
    rw [List.filter_map Prod.fst (groupPairs l)]
    rfl
  rw [hmf]
  have hperm : List.Perm (((groupPairs l).map Prod.fst).filter Q)
      ((l.map Prod.fst).dedup.filter Q) := by
    apply (List.perm_ext_iff_of_nodup
      ((groupPairs_keys_nodup l).filter Q) ((l.map Prod.fst).nodup_dedup.filter Q)).mpr
    intro p
    simp only [List.mem_filter, List.mem_dedup, groupPairs_mem_keys l p]
  exact (hperm.map _).sum_eq

/-!
## Validity bounds

The per-section maxima documented in the source header (국어 공통 76 + 선택 24,
수학 공통 74 + 선택 26, 영어 100, 한국사 50, each exploration subject 50).
A dataset is valid when every record's score lies within its section's scale.
-/

/-- Maximum points of one (subject, section) combination, per the point scales
documented at the top of dataTransform.js. -/
def sectionMax (subject sect : String) : ℚ :=
  if subject = "국어" then (if sect = "공통" then 76 else 24)
  else if subject = "수학" then (if sect = "공통" then 74 else 26)
  else if subject = "영어" then 100
  else if subject = "한국사" then 50
  else 50

/-- Every record's score lies within `[0, sectionMax]`. -/
def ValidData (data : List ResultRecord) : Prop :=
  ∀ r ∈ data, 0 ≤ r.score ∧ r.score ≤ sectionMax r.subject r.sect

theorem sectionMax_nonneg (subject sect : String) : 0 ≤ sectionMax subject sect := by
  unfold sectionMax
  split_ifs <;> norm_num

theorem validData_getModelData (data : List ResultRecord) (m : String)
    (h : ValidData data) : ValidData (getModelData data m) :=
  fun r hr => h r (List.mem_of_mem_filter hr)

theorem getScore_nonneg (md : List ResultRecord) (subject sect : String)
    (h : ValidData md) : 0 ≤ _getScore md subject sect := by
  unfold _getScore
  cases hf : md.find? (fun d => d.subject == subject && d.sect == sect) with
  | none => simp
  | some r =>
      simpa using (h r (List.mem_of_find?_eq_some hf)).1

theorem getScore_le (md : List ResultRecord) (subject sect : String)
    (h : ValidData md) : _getScore md subject sect ≤ sectionMax subject sect := by
  unfold _getScore
  cases hf : md.find? (fun d => d.subject == subject && d.sect == sect) with
  | none => simpa using sectionMax_nonneg subject sect
  | some r =>
      have hp := List.find?_some hf
      simp only [Bool.and_eq_true, beq_iff_eq] at hp
      have hb := (h r (List.mem_of_find?_eq_some hf)).2
      rw [hp.1, hp.2] at hb
      simpa using hb

theorem sum_map_le_mul_length {α : Type} (l : List α) (f : α → ℚ) (B : ℚ)
    (h : ∀ x ∈ l, f x ≤ B) : (l.map f).sum ≤ (l.length : ℚ) * B := by
  induction l with
  | nil => simp
  | cons x xs ih =>
      have hx := h x (List.mem_cons_self _ _)
      have hxs := ih (fun y hy => h y (List.mem_cons_of_mem _ hy))
      simp only [List.map_cons, List.sum_cons, List.length_cons]
      push_cast
      linarith

theorem div_cast_le (a B : ℚ) (n : ℕ) (ha : a ≤ (n : ℚ) * B) (hB : 0 ≤ B)
    (h0 : n = 0 → a ≤ 0) : a / (n : ℚ) ≤ B := by
  rcases Nat.eq_zero_or_pos n with hn | hn
  · subst hn
    simp
    exact hB
  · have hn' : 0 < (n : ℚ) := by exact_mod_cast hn
    rw [div_le_iff₀ hn']
    linarith

/-- The bounds that a composite score built from valid data satisfies. -/
structure BoundedScore (s : CompositeScore) : Prop where
  kc0 : 0 ≤ s.koreanDetail.common
  kc : s.koreanDetail.common ≤ 76
  ke : ∀ e ∈ s.koreanDetail.electives, 0 ≤ e.2 ∧ e.2 ≤ 24
  kt : s.korean ≤ 100
  mc0 : 0 ≤ s.mathDetail.common
  mc : s.mathDetail.common ≤ 74
  me : ∀ e ∈ s.mathDetail.electives, 0 ≤ e.2 ∧ e.2 ≤ 26
  mt : s.math ≤ 100
  en : s.english ≤ 100
  hi : s.history ≤ 50
  ex : ∀ e ∈ s.explorationDetail.subjects, 0 ≤ e.2 ∧ e.2 ≤ 50
  et : s.exploration ≤ 100
  tt : s.total ≤ 450

theorem objGetD_bounds (l : List (String × ℚ)) (k : String) (B : ℚ) (hB : 0 ≤ B)
    (h : ∀ e ∈ l, 0 ≤ e.2 ∧ e.2 ≤ B) : 0 ≤ objGetD l k ∧ objGetD l k ≤ B := by
  unfold objGetD
  cases hf : l.find? (fun e => e.1 == k) with
  | none =>
      constructor <;> simp [hB]
  | some e =>
      simpa using h e (List.mem_of_find?_eq_some hf)

theorem subjectMax_nonneg (p : String) : 0 ≤ objGetD SUBJECT_MAX_SCORES p := by
  refine (objGetD_bounds _ p 100 (by norm_num) ?_).1
  intro e he
  simp only [SUBJECT_MAX_SCORES, List.mem_cons, List.not_mem_nil, or_false] at he
  rcases he with rfl | rfl | rfl | rfl | rfl <;> norm_num

/-- The nonzero-only averaging pattern shared by `_calculateSubjectScore` and
`_calculateExplorationScore`: mean of the entries with positive value, `0` when
there are none.  Definitionally equal to the corresponding subexpression of
both source functions. -/
def nonzeroAvg (l : List (String × ℚ)) : ℚ :=
  if 0 < (l.filter (fun e => 0 < e.2)).length then
    ((l.filter (fun e => 0 < e.2)).map (fun e => e.2)).sum /
      (((l.filter (fun e => 0 < e.2)).length : ℕ) : ℚ)
  else 0

theorem subjectDetail_eta (md : List ResultRecord) (subject : String) :
    _calculateSubjectScore md subject =
      ⟨_getScore md subject "공통",
       (if subject = "국어" then ["화작", "언매"] else ["확통", "미적", "기하"]).map
         (fun sect => (sect, _getScore md subject sect)),
       nonzeroAvg ((if subject = "국어" then ["화작", "언매"] else ["확통", "미적", "기하"]).map
         (fun sect => (sect, _getScore md subject sect))),
       _getScore md subject "공통" +
         nonzeroAvg ((if subject = "국어" then ["화작", "언매"] else ["확통", "미적", "기하"]).map
           (fun sect => (sect, _getScore md subject sect)))⟩ := rfl

theorem explorationDetail_eta (md : List ResultRecord) :
    _calculateExplorationScore md =
      ⟨(["물리1", "화학1", "생명1", "사회문화"]).map
         (fun subj => (subj, _getScore md subj "탐구")),
       nonzeroAvg ((["물리1", "화학1", "생명1", "사회문화"]).map
         (fun subj => (subj, _getScore md subj "탐구"))),
       nonzeroAvg ((["물리1", "화학1", "생명1", "사회문화"]).map
         (fun subj => (subj, _getScore md subj "탐구"))) * 2⟩ := rfl

theorem nonzeroAvg_nonneg (l : List (String × ℚ)) : 0 ≤ nonzeroAvg l := by
  unfold nonzeroAvg
  split_ifs with hlen
  · apply div_nonneg
    · apply List.sum_nonneg
      intro x hx
      simp only [List.mem_map] at hx
      obtain ⟨e, he, rfl⟩ := hx
      have := List.of_mem_filter he
      simp only [decide_eq_true_eq] at this
      exact le_of_lt this
    · positivity
  · exact le_refl 0

theorem nonzeroAvg_le (l : List (String × ℚ)) (E : ℚ) (hE : 0 ≤ E)
    (h : ∀ e ∈ l, e.2 ≤ E) : nonzeroAvg l ≤ E := by
  unfold nonzeroAvg
  split_ifs with hlen
  · apply div_cast_le _ _ _ ?_ hE (fun h0 => absurd h0 (by omega))
    apply sum_map_le_mul_length
    intro e he
    exact h e (List.mem_of_mem_filter he)
  · exact hE

theorem nonzeroAvg_eq_zero (l : List (String × ℚ))
    (h : l.filter (fun e => 0 < e.2) = []) : nonzeroAvg l = 0 := by
  unfold nonzeroAvg
  rw [h]
  simp

theorem nonzeroAvg_mul_length (l : List (String × ℚ)) :
    nonzeroAvg l * (((l.filter (fun e => 0 < e.2)).length : ℕ) : ℚ)
      = ((l.filter (fun e => 0 < e.2)).map (fun e => e.2)).sum := by
  unfold nonzeroAvg
  split_ifs with hlen
  · rw [div_mul_cancel₀]
    intro hz
    rw [Nat.cast_eq_zero] at hz
    omega
  · have hz : (l.filter (fun e => 0 < e.2)).length = 0 := by omega
    rw [hz]
    rw [List.length_eq_zero] at hz
    simp [hz]

theorem boundedScore_of_valid (data : List ResultRecord) (m : String)
    (h : ValidData data) : BoundedScore (calculateOverallScore data m) := by
  have hv : ValidData (getModelData data m) := validData_getModelData data m h
  set md := getModelData data m with hmd
  have hke : ∀ e ∈ (_calculateSubjectScore md "국어").electives, 0 ≤ e.2 ∧ e.2 ≤ 24 := by
    intro e he
    have hlist : (_calculateSubjectScore md "국어").electives =
        [("화작", _getScore md "국어" "화작"), ("언매", _getScore md "국어" "언매")] := rfl
    rw [hlist] at he
    rcases List.mem_cons.mp he with rfl | he2
    · exact ⟨getScore_nonneg md "국어" "화작" hv, getScore_le md "국어" "화작" hv⟩
    rcases List.mem_cons.mp he2 with rfl | he3
    · exact ⟨getScore_nonneg md "국어" "언매" hv, getScore_le md "국어" "언매" hv⟩
    exact absurd he3 (List.not_mem_nil e)
  have hme : ∀ e ∈ (_calculateSubjectScore md "수학").electives, 0 ≤ e.2 ∧ e.2 ≤ 26 := by
    intro e he
    have hlist : (_calculateSubjectScore md "수학").electives =
        [("확통", _getScore md "수학" "확통"), ("미적", _getScore md "수학" "미적"),
         ("기하", _getScore md "수학" "기하")] := rfl
    rw [hlist] at he
    rcases List.mem_cons.mp he with rfl | he2
    · exact ⟨getScore_nonneg md "수학" "확통" hv, getScore_le md "수학" "확통" hv⟩
    rcases List.mem_cons.mp he2 with rfl | he3
    · exact ⟨getScore_nonneg md "수학" "미적" hv, getScore_le md "수학" "미적" hv⟩
    rcases List.mem_cons.mp he3 with rfl | he4
    · exact ⟨getScore_nonneg md "수학" "기하" hv, getScore_le md "수학" "기하" hv⟩
    exact absurd he4 (List.not_mem_nil e)
  have hxe : ∀ e ∈ (_calculateExplorationScore md).subjects, 0 ≤ e.2 ∧ e.2 ≤ 50 := by
    intro e he
    have hlist : (_calculateExplorationScore md).subjects =
        [("물리1", _getScore md "물리1" "탐구"), ("화학1", _getScore md "화학1" "탐구"),
         ("생명1", _getScore md "생명1" "탐구"), ("사회문화", _getScore md "사회문화" "탐구")] := rfl
    rw [hlist] at he
    rcases List.mem_cons.mp he with rfl | he2
    · exact ⟨getScore_nonneg md "물리1" "탐구" hv, getScore_le md "물리1" "탐구" hv⟩
    rcases List.mem_cons.mp he2 with rfl | he3
    · exact ⟨getScore_nonneg md "화학1" "탐구" hv, getScore_le md "화학1" "탐구" hv⟩
    rcases List.mem_cons.mp he3 with rfl | he4
    · exact ⟨getScore_nonneg md "생명1" "탐구" hv, getScore_le md "생명1" "탐구" hv⟩
    rcases List.mem_cons.mp he4 with rfl | he5
    · exact ⟨getScore_nonneg md "사회문화" "탐구" hv, getScore_le md "사회문화" "탐구" hv⟩
    exact absurd he5 (List.not_mem_nil e)
  have hkavg : (_calculateSubjectScore md "국어").electiveAvg =
      nonzeroAvg ((_calculateSubjectScore md "국어").electives) := rfl
  have hmavg : (_calculateSubjectScore md "수학").electiveAvg =
      nonzeroAvg ((_calculateSubjectScore md "수학").electives) := rfl
  have hxavg : (_calculateExplorationScore md).average =
      nonzeroAvg ((_calculateExplorationScore md).subjects) := rfl
  have hka : (_calculateSubjectScore md "국어").electiveAvg ≤ 24 := by
    rw [hkavg]
    exact nonzeroAvg_le _ 24 (by norm_num) (fun e he => (hke e he).2)
  have hka0 : 0 ≤ (_calculateSubjectScore md "국어").electiveAvg := by
    rw [hkavg]
    exact nonzeroAvg_nonneg _
  have hma : (_calculateSubjectScore md "수학").electiveAvg ≤ 26 := by
    rw [hmavg]
    exact nonzeroAvg_le _ 26 (by norm_num) (fun e he => (hme e he).2)
  have hma0 : 0 ≤ (_calculateSubjectScore md "수학").electiveAvg := by
    rw [hmavg]
    exact nonzeroAvg_nonneg _
  have hxa : (_calculateExplorationScore md).average ≤ 50 := by
    rw [hxavg]
    exact nonzeroAvg_le _ 50 (by norm_num) (fun e he => (hxe e he).2)
  have hkc0 : 0 ≤ (_calculateSubjectScore md "국어").common :=
    getScore_nonneg md "국어" "공통" hv
  have hkc : (_calculateSubjectScore md "국어").common ≤ 76 :=
    getScore_le md "국어" "공통" hv
  have hmc0 : 0 ≤ (_calculateSubjectScore md "수학").common :=
    getScore_nonneg md "수학" "공통" hv
  have hmc : (_calculateSubjectScore md "수학").common ≤ 74 :=
    getScore_le md "수학" "공통" hv
  have hkt : (_calculateSubjectScore md "국어").total ≤ 100 := by
    have : (_calculateSubjectScore md "국어").total =
        (_calculateSubjectScore md "국어").common +
          (_calculateSubjectScore md "국어").electiveAvg := rfl
    rw [this]
    linarith
  have hmt : (_calculateSubjectScore md "수학").total ≤ 100 := by
    have : (_calculateSubjectScore md "수학").total =
        (_calculateSubjectScore md "수학").common +
          (_calculateSubjectScore md "수학").electiveAvg := rfl
    rw [this]
    linarith
  have hxt : (_calculateExplorationScore md).total ≤ 100 := by
    have : (_calculateExplorationScore md).total =
        (_calculateExplorationScore md).average * 2 := rfl
    rw [this]
    linarith
  have hen : _getScore md "영어" "영어" ≤ 100 := getScore_le md "영어" "영어" hv
  have hhi : _getScore md "한국사" "한국사" ≤ 50 := getScore_le md "한국사" "한국사" hv
  refine ⟨hkc0, hkc, hke, hkt, hmc0, hmc, hme, hmt, hen, hhi, hxe, hxt, ?_⟩
  show (_calculateSubjectScore md "국어").total + (_calculateSubjectScore md "수학").total
      + _getScore md "영어" "영어" + _getScore md "한국사" "한국사"
      + (_calculateExplorationScore md).total ≤ 450
  linarith

/-- The contribution of one elective group to `getMaxScore`, as a function of
the owning parent and the number of its surviving tokens. -/
def maxEntry (p : String) (n : ℕ) : ℚ :=
  if p = "탐구" then (if n = 1 then 50 else 100) else objGetD SUBJECT_MAX_SCORES p

theorem sum_objGetD_le (l : List (String × ℚ)) (cs : List String) (B : ℚ) (hB : 0 ≤ B)
    (h : ∀ e ∈ l, 0 ≤ e.2 ∧ e.2 ≤ B) :
    (cs.map (fun c => objGetD l (electiveNameMap c))).sum ≤ (cs.length : ℚ) * B :=
  sum_map_le_mul_length cs _ B (fun c _ => (objGetD_bounds l (electiveNameMap c) B hB h).2)

theorem div_objGetD_le (l : List (String × ℚ)) (cs : List String) (B : ℚ) (hB : 0 ≤ B)
    (h : ∀ e ∈ l, 0 ≤ e.2 ∧ e.2 ≤ B) :
    (cs.map (fun c => objGetD l (electiveNameMap c))).sum / ((cs.length : ℕ) : ℚ) ≤ B := by
  apply div_cast_le _ _ _ (sum_objGetD_le l cs B hB h) hB
  intro h0
  rw [List.length_eq_zero] at h0
  subst h0
  simp

theorem groupTotal_le_maxEntry (s : CompositeScore) (hb : BoundedScore s)
    (p : String) (cs : List String) :
    groupTotal s p cs ≤ maxEntry p cs.length := by
  by_cases hkm : p = "국어" ∨ p = "수학"
  · rcases hkm with rfl | rfl
    · have hgt : groupTotal s "국어" cs =
          s.koreanDetail.common +
            (cs.map (fun c => objGetD s.koreanDetail.electives (electiveNameMap c))).sum
              / ((cs.length : ℕ) : ℚ) := rfl
      have hmx : maxEntry "국어" cs.length = 100 := rfl
      have hdiv := div_objGetD_le s.koreanDetail.electives cs 24 (by norm_num) hb.ke
      rw [hgt, hmx]
      linarith [hb.kc]
    · have hgt : groupTotal s "수학" cs =
          s.mathDetail.common +
            (cs.map (fun c => objGetD s.mathDetail.electives (electiveNameMap c))).sum
              / ((cs.length : ℕ) : ℚ) := rfl
      have hmx : maxEntry "수학" cs.length = 100 := rfl
      have hdiv := div_objGetD_le s.mathDetail.electives cs 26 (by norm_num) hb.me
      rw [hgt, hmx]
      linarith [hb.mc]
  · by_cases ht : p = "탐구"
    · subst ht
      have hgt : groupTotal s "탐구" cs =
          (if cs.length = 1 then
            (cs.map (fun c => objGetD s.explorationDetail.subjects (electiveNameMap c))).sum
          else
            ((cs.map (fun c =>
                objGetD s.explorationDetail.subjects (electiveNameMap c))).sum
              / ((cs.length : ℕ) : ℚ)) * 2) := rfl
      have hmx : maxEntry "탐구" cs.length =
          (if cs.length = 1 then (50 : ℚ) else 100) := rfl
      rw [hgt, hmx]
      by_cases h1 : cs.length = 1
      · rw [if_pos h1, if_pos h1]
        have := sum_objGetD_le s.explorationDetail.subjects cs 50 (by norm_num) hb.ex
        rw [h1] at this
        simpa using this
      · rw [if_neg h1, if_neg h1]
        have hdiv := div_objGetD_le s.explorationDetail.subjects cs 50 (by norm_num) hb.ex
        linarith
    · have hgt : groupTotal s p cs = 0 := by
        unfold groupTotal
        rw [if_neg hkm, if_neg ht]
      have hmx : maxEntry p cs.length = objGetD SUBJECT_MAX_SCORES p := by
        unfold maxEntry
        rw [if_neg ht]
      rw [hgt, hmx]
      exact subjectMax_nonneg p

theorem subjectField_le_max (s : CompositeScore) (hb : BoundedScore s) (p : String) :
    subjectField s p ≤ objGetD SUBJECT_MAX_SCORES p := by
  unfold subjectField
  split_ifs with h1 h2 h3 h4 h5
  · subst h1
    exact le_trans hb.kt (by simp [objGetD, SUBJECT_MAX_SCORES, List.find?])
  · subst h2
    exact le_trans hb.mt (by simp [objGetD, SUBJECT_MAX_SCORES, List.find?])
  · subst h3
    exact le_trans hb.en (by simp [objGetD, SUBJECT_MAX_SCORES, List.find?])
  · subst h4
    exact le_trans hb.hi (by simp [objGetD, SUBJECT_MAX_SCORES, List.find?])
  · subst h5
    exact le_trans hb.et (by simp [objGetD, SUBJECT_MAX_SCORES, List.find?])
  · exact subjectMax_nonneg p

/-- The distinct parents of the compound tokens of a filter that do not also
occur as bare tokens, in dedup order. -/
def electiveParents (f : List String) : List String :=
  ((f.filter (fun t => isCompound t)).map parentOf).dedup.filter
    (fun p => !((f.filter (fun s => !(isCompound s))).contains p))

/-- How many compound tokens of the filter have parent `p`. -/
def tokenCount (f : List String) (p : String) : ℕ :=
  ((f.filter (fun t => isCompound t)).filter (fun t => parentOf t == p)).length

theorem filteredGroup_sum_eq (f : List String) (F : String → ℕ → ℚ) :
    (((groupChildren f).filter
        (fun g => !((f.filter (fun s => !(isCompound s))).contains g.1))).map
      (fun g => F g.1 g.2.length)).sum
      = ((electiveParents f).map (fun p => F p (tokenCount f p))).sum := by
  rw [groupChildren_eq_groupPairs]
  rw [sum_groupPairs_filter _ (fun p => !((f.filter (fun s => !(isCompound s))).contains p)) F]
  have hkeys : ((f.filter (fun t => isCompound t)).map
      (fun t => (parentOf t, childOf t))).map Prod.fst
      = (f.filter (fun t => isCompound t)).map parentOf := by
    rw [List.map_map]
    rfl
  rw [hkeys]
  apply congrArg List.sum
  apply List.map_congr_left
  intro p _
  have hlen : (((f.filter (fun t => isCompound t)).map
      (fun t => (parentOf t, childOf t))).filter (fun x => x.1 == p)).length
      = tokenCount f p := by
    rw [List.filter_map, List.length_map]
    rfl
  rw [hlen]

theorem maxGroup_sum_eq (f : List String) (F : String → ℕ → ℚ) :
    ((groupChildrenMax f (f.filter (fun s => !(isCompound s)))).map
      (fun g => F g.1 g.2.length)).sum
      = ((electiveParents f).map (fun p => F p (tokenCount f p))).sum := by
  rw [groupChildrenMax_eq_groupPairs]
  rw [← List.filter_true (groupPairs ((f.filter
      (fun t => isCompound t &&
        !((f.filter (fun s => !(isCompound s))).contains (parentOf t)))).map
    (fun t => (parentOf t, t))))]
  rw [sum_groupPairs_filter _ (fun _ => true) F]
  rw [List.filter_true]
  have hkeys : ((f.filter
      (fun t => isCompound t &&
        !((f.filter (fun s => !(isCompound s))).contains (parentOf t)))).map
    (fun t => (parentOf t, t))).map Prod.fst
      = (f.filter
          (fun t => isCompound t &&
            !((f.filter (fun s => !(isCompound s))).contains (parentOf t)))).map parentOf := by
    rw [List.map_map]
    rfl
  rw [hkeys]
  have hcnt : ∀ p ∈ ((f.filter
      (fun t => isCompound t &&
        !((f.filter (fun s => !(isCompound s))).contains (parentOf t)))).map parentOf).dedup,
      (((f.filter
        (fun t => isCompound t &&
          !((f.filter (fun s => !(isCompound s))).contains (parentOf t)))).map
            (fun t => (parentOf t, t))).filter (fun x => x.1 == p)).length
        = tokenCount f p := by
    intro p hp
    have hpc : (f.filter (fun s => !(isCompound s))).contains p = false := by
      simp only [List.mem_dedup, List.mem_map, List.mem_filter, Bool.and_eq_true,
        Bool.not_eq_true'] at hp
      obtain ⟨t, ⟨-, -, hc⟩, rfl⟩ := hp
      exact hc
    rw [List.filter_map, List.length_map]
    show ((f.filter _).filter (fun t => parentOf t == p)).length = tokenCount f p
    rw [List.filter_filter]
    unfold tokenCount
    rw [List.filter_filter]
    apply congrArg List.length
    apply List.filter_congr
    intro t _
    by_cases hc : (parentOf t == p) = true
    · have hpt : parentOf t = p := by simpa using hc
      rw [hpt, hpc]
      simp
    · simp only [Bool.not_eq_true] at hc
      simp [hc]
  have hmapc := List.map_congr_left (fun p hp => by rw [hcnt p hp] :
    ∀ p ∈ ((f.filter
      (fun t => isCompound t &&
        !((f.filter (fun s => !(isCompound s))).contains (parentOf t)))).map parentOf).dedup,
      F p ((((f.filter
        (fun t => isCompound t &&
          !((f.filter (fun s => !(isCompound s))).contains (parentOf t)))).map
            (fun t => (parentOf t, t))).filter (fun x => x.1 == p)).length)
        = F p (tokenCount f p))
  rw [hmapc]
  have hperm : List.Perm ((f.filter
      (fun t => isCompound t &&
        !((f.filter (fun s => !(isCompound s))).contains (parentOf t)))).map parentOf).dedup
      (electiveParents f) := by
    apply (List.perm_ext_iff_of_nodup (List.nodup_dedup _)
      ((List.nodup_dedup _).filter _)).mpr
    intro p
    simp only [electiveParents, List.mem_filter, List.mem_dedup, List.mem_map,
      Bool.and_eq_true, Bool.not_eq_true']
    constructor
    · rintro ⟨t, ⟨htf, htc, hnb⟩, rfl⟩
      exact ⟨⟨t, ⟨htf, htc⟩, rfl⟩, hnb⟩
    · rintro ⟨⟨t, ⟨htf, htc⟩, rfl⟩, hnb⟩
      exact ⟨t, ⟨htf, htc, hnb⟩, rfl⟩
  exact (hperm.map _).sum_eq

theorem getFilteredTotal_nonempty (scoreObj : CompositeScore) (f : List String)
    (h : f.isEmpty = false) :
    getFilteredTotal scoreObj f =
      ((f.filter (fun s => !(isCompound s))).map (fun p => subjectField scoreObj p)).sum
        + (((groupChildren f).filter
            (fun g => !((f.filter (fun s => !(isCompound s))).contains g.1))).map
          (fun g => groupTotal scoreObj g.1 g.2)).sum := by
  simp only [getFilteredTotal, h, Bool.false_eq_true, if_false]

theorem getMaxScore_nonempty (f : List String) (h : f.isEmpty = false) :
    getMaxScore f =
      ((f.filter (fun s => !(isCompound s))).map (fun p => objGetD SUBJECT_MAX_SCORES p)).sum
        + ((groupChildrenMax f (f.filter (fun s => !(isCompound s)))).map
          (fun g => maxEntry g.1 g.2.length)).sum := by
  simp only [getMaxScore, h, Bool.false_eq_true, if_false]
  rfl

theorem filtered_le_max (s : CompositeScore) (hb : BoundedScore s) (f : List String) :
    getFilteredTotal s f ≤ getMaxScore f := by
  cases hfe : f.isEmpty with
  | true =>
      have hf : f = [] := List.isEmpty_iff.mp hfe
      subst hf
      have h1 : getFilteredTotal s [] = s.total := rfl
      have h2 : getMaxScore [] = 450 := rfl
      rw [h1, h2]
      exact hb.tt
  | false =>
      rw [getFilteredTotal_nonempty s f hfe, getMaxScore_nonempty f hfe]
      have hbare : ((f.filter (fun s2 => !(isCompound s2))).map
            (fun p => subjectField s p)).sum
          ≤ ((f.filter (fun s2 => !(isCompound s2))).map
            (fun p => objGetD SUBJECT_MAX_SCORES p)).sum :=
        List.sum_le_sum (fun p _ => subjectField_le_max s hb p)
      have hgrp1 : (((groupChildren f).filter
            (fun g => !((f.filter (fun s2 => !(isCompound s2))).contains g.1))).map
          (fun g => groupTotal s g.1 g.2)).sum
          ≤ (((groupChildren f).filter
            (fun g => !((f.filter (fun s2 => !(isCompound s2))).contains g.1))).map
          (fun g => maxEntry g.1 g.2.length)).sum :=
        List.sum_le_sum (fun g _ => groupTotal_le_maxEntry s hb g.1 g.2)
      have hgrp2 := filteredGroup_sum_eq f maxEntry
      have hgrp3 := maxGroup_sum_eq f maxEntry
      linarith

/-!
## Claim theorems
-/

/-- C1 (counterexample): as stated over arbitrary result datasets the bound
fails — a dataset whose 국어 공통 record carries 200 points (beyond the 76-point
scale of that section) yields `getFilteredTotal = 200 > 100 = getMaxScore` for
the filter `["국어"]`. -/
theorem claim_C1_counterexample :
    ¬ (getFilteredTotal
        (calculateOverallScore [⟨"m", "국어", "공통", 200, none⟩] "m") ["국어"]
        ≤ getMaxScore ["국어"]) := by
  have h1 : getFilteredTotal
      (calculateOverallScore [⟨"m", "국어", "공통", 200, none⟩] "m") ["국어"] = 200 := by
    simp [calculateOverallScore, _calculateSubjectScore, _calculateExplorationScore,
      _getScore, getModelData, List.find?_cons_of_pos, List.find?_cons_of_neg,
      List.find?_nil, getFilteredTotal, groupChildren, insertGroup, isCompound,
      parentOf, childOf, splitDash, splitDashAux, groupTotal, objGetD,
      electiveNameMap, subjectField]
  have h2 : getMaxScore ["국어"] = 100 := by
    simp [getMaxScore, groupChildrenMax, insertGroup, isCompound, parentOf, childOf,
      splitDash, splitDashAux, objGetD, SUBJECT_MAX_SCORES, List.find?_cons_of_pos,
      List.find?_cons_of_neg, List.find?_nil]
  rw [h1, h2]
  norm_num

/-- C1 (amended): for every dataset whose records all score within their
section's documented scale (`0 ≤ score ≤ sectionMax`), every model and every
subject filter, the filtered total never exceeds the filter's maximum:
`getFilteredTotal (calculateOverallScore data m) f ≤ getMaxScore f`. -/
theorem claim_C1 (data : List ResultRecord) (m : String) (h : ValidData data)
    (f : List String) :
    getFilteredTotal (calculateOverallScore data m) f ≤ getMaxScore f :=
  filtered_le_max _ (boundedScore_of_valid data m h) f

/-- C1 witness: the amended theorem applied to a concrete valid dataset and a
concrete filter. -/
theorem claim_C1_witness :
    ValidData [⟨"m", "국어", "공통", 76, none⟩, ⟨"m", "국어", "화작", 20, none⟩] ∧
    getFilteredTotal
      (calculateOverallScore
        [⟨"m", "국어", "공통", 76, none⟩, ⟨"m", "국어", "화작", 20, none⟩] "m")
      ["국어", "탐구-물리1"]
      ≤ getMaxScore ["국어", "탐구-물리1"] := by
  have hv : ValidData [⟨"m", "국어", "공통", 76, none⟩, ⟨"m", "국어", "화작", 20, none⟩] := by
    unfold ValidData
    decide
  exact ⟨hv, claim_C1 _ "m" hv _⟩

/-- C2 (counterexample): with exactly one nonzero exploration subject (물리1
scored 40) the unfiltered composite doubles it: exploration = 80, not the raw
40 the claim requires for a single nonzero entry. -/
theorem claim_C2_counterexample :
    ((calculateOverallScore [⟨"m", "물리1", "탐구", 40, none⟩]
        "m").explorationDetail.subjects.filter (fun e => 0 < e.2)).map (fun e => e.2)
      = [40] ∧
    (calculateOverallScore [⟨"m", "물리1", "탐구", 40, none⟩] "m").exploration = 80 ∧
    (80 : ℚ) ≠ 40 := by
  refine ⟨by decide, ?_, by norm_num⟩
  simp [calculateOverallScore, _calculateSubjectScore, _calculateExplorationScore,
    _getScore, getModelData, List.find?_cons_of_pos, List.find?_cons_of_neg,
    List.find?_nil]
  norm_num

/-- C2 (amended): in the unfiltered composite the exploration total is always
the arithmetic mean of the nonzero exploration subjects times 2 (so exactly one
nonzero score s yields 2·s, not s), and 0 when none is nonzero. -/
theorem claim_C2 (data : List ResultRecord) (m : String) :
    (calculateOverallScore data m).exploration
        = (calculateOverallScore data m).explorationDetail.total ∧
    (calculateOverallScore data m).explorationDetail.total
        * ((((calculateOverallScore data m).explorationDetail.subjects.filter
            (fun x => 0 < x.2)).length : ℕ) : ℚ)
      = 2 * (((calculateOverallScore data m).explorationDetail.subjects.filter
            (fun x => 0 < x.2)).map (fun x => x.2)).sum ∧
    (((calculateOverallScore data m).explorationDetail.subjects.filter
        (fun x => 0 < x.2)).length = 0
      → (calculateOverallScore data m).explorationDetail.total = 0) := by
  have he : (calculateOverallScore data m).explorationDetail =
      _calculateExplorationScore (getModelData data m) := rfl
  have htot : (_calculateExplorationScore (getModelData data m)).total =
      nonzeroAvg ((_calculateExplorationScore (getModelData data m)).subjects) * 2 := rfl
  refine ⟨rfl, ?_, ?_⟩
  · rw [he, htot]
    have hm := nonzeroAvg_mul_length
      ((_calculateExplorationScore (getModelData data m)).subjects)
    calc nonzeroAvg ((_calculateExplorationScore (getModelData data m)).subjects) * 2
          * ((((_calculateExplorationScore (getModelData data m)).subjects.filter
              (fun x => 0 < x.2)).length : ℕ) : ℚ)
        = 2 * (nonzeroAvg ((_calculateExplorationScore (getModelData data m)).subjects)
            * ((((_calculateExplorationScore (getModelData data m)).subjects.filter
              (fun x => 0 < x.2)).length : ℕ) : ℚ)) := by ring
      _ = 2 * (((_calculateExplorationScore (getModelData data m)).subjects.filter
            (fun x => 0 < x.2)).map (fun x => x.2)).sum := by rw [hm]
  · intro hlen
    rw [he] at hlen ⊢
    rw [htot]
    rw [List.length_eq_zero] at hlen
    rw [nonzeroAvg_eq_zero _ hlen]
    ring

/-- C2 witness: a model with no records has no nonzero exploration subject and
exploration total 0. -/
theorem claim_C2_witness :
    ((calculateOverallScore ([] : List ResultRecord) "m").explorationDetail.subjects.filter
        (fun x => 0 < x.2)).length = 0 ∧
    (calculateOverallScore ([] : List ResultRecord) "m").explorationDetail.total = 0 :=
  ⟨by decide, (claim_C2 [] "m").2.2 (by decide)⟩

/-- C3 (counterexample): `getFilteredTotal` does not agree with the normalized
filter — for a model with 국어 공통 76, 화작 20, 언매 absent, the filter
`["국어-화작", "국어-언매"]` yields 76 + (20+0)/2 = 86, while its normalization
`["국어"]` yields the parent total 96. -/
theorem claim_C3_counterexample :
    getFilteredTotal
        (calculateOverallScore
          [⟨"m", "국어", "공통", 76, none⟩, ⟨"m", "국어", "화작", 20, none⟩] "m")
        ["국어-화작", "국어-언매"]
      ≠ getFilteredTotal
        (calculateOverallScore
          [⟨"m", "국어", "공통", 76, none⟩, ⟨"m", "국어", "화작", 20, none⟩] "m")
        (_normalizeSubjectFilter ["국어-화작", "국어-언매"]) := by
  have hn : _normalizeSubjectFilter ["국어-화작", "국어-언매"] = ["국어"] := by decide
  rw [hn]
  have h1 : getFilteredTotal
      (calculateOverallScore
        [⟨"m", "국어", "공통", 76, none⟩, ⟨"m", "국어", "화작", 20, none⟩] "m")
      ["국어-화작", "국어-언매"] = 86 := by
    simp [calculateOverallScore, _calculateSubjectScore, _calculateExplorationScore,
      _getScore, getModelData, List.find?_cons_of_pos, List.find?_cons_of_neg,
      List.find?_nil, getFilteredTotal, groupChildren, insertGroup, isCompound,
      parentOf, childOf, splitDash, splitDashAux, groupTotal, objGetD,
      electiveNameMap, subjectField]
    norm_num
  have h2 : getFilteredTotal
      (calculateOverallScore
        [⟨"m", "국어", "공통", 76, none⟩, ⟨"m", "국어", "화작", 20, none⟩] "m")
      ["국어"] = 96 := by
    simp [calculateOverallScore, _calculateSubjectScore, _calculateExplorationScore,
      _getScore, getModelData, List.find?_cons_of_pos, List.find?_cons_of_neg,
      List.find?_nil, getFilteredTotal, groupChildren, insertGroup, isCompound,
      parentOf, childOf, splitDash, splitDashAux, groupTotal, objGetD,
      electiveNameMap, subjectField]
    norm_num
  rw [h1, h2]
  norm_num

/-- C3 (amended): `getFilteredTotal` processes the raw filter without
normalizing it; a group of ≥ 2 elective tokens of a common-bearing parent
contributes the common score plus the mean over all selected electives,
zero-scored ones included: for every composite score s,
`getFilteredTotal s ["국어-화작", "국어-언매"]` equals
`common + (화작점수 + 언매점수) / 2`, which differs from the parent total
`s.korean` whenever the nonzero-only elective average differs from that mean. -/
theorem claim_C3 (s : CompositeScore) :
    getFilteredTotal s ["국어-화작", "국어-언매"]
      = s.koreanDetail.common +
        (objGetD s.koreanDetail.electives "화작"
          + objGetD s.koreanDetail.electives "언매") / 2 := by
  rw [getFilteredTotal_nonempty s ["국어-화작", "국어-언매"] rfl]
  have hbare : (["국어-화작", "국어-언매"].filter (fun s2 => !(isCompound s2)))
      = [] := by decide
  have hgc : groupChildren ["국어-화작", "국어-언매"] = [("국어", ["화작", "언매"])] := by
    decide
  rw [hbare, hgc]
  have hflt : ([("국어", ["화작", "언매"])].filter
      (fun g => !(([] : List String).contains g.1))) = [("국어", ["화작", "언매"])] := by
    decide
  rw [hflt]
  have hgt : groupTotal s "국어" ["화작", "언매"]
      = s.koreanDetail.common +
          (objGetD s.koreanDetail.electives "화작"
            + (objGetD s.koreanDetail.electives "언매" + 0)) / ((2 : ℕ) : ℚ) := rfl
  simp only [List.map_nil, List.sum_nil, List.map_cons, List.sum_cons, hgt]
  push_cast
  ring

/-- C4: for any model data and subject, the elective average times the number
of nonzero electives equals the sum of the nonzero electives' scores, it is 0
when no elective is nonzero, and the subject total is common + electiveAvg; in
particular elective scores [0, 18] (화작 absent, 언매 18) give electiveAvg 18,
not 9. -/
theorem claim_C4 (md : List ResultRecord) (subject : String) :
    (_calculateSubjectScore md subject).total
        = (_calculateSubjectScore md subject).common
          + (_calculateSubjectScore md subject).electiveAvg ∧
    (_calculateSubjectScore md subject).electiveAvg
        * ((((_calculateSubjectScore md subject).electives.filter
            (fun e => 0 < e.2)).length : ℕ) : ℚ)
      = (((_calculateSubjectScore md subject).electives.filter
            (fun e => 0 < e.2)).map (fun e => e.2)).sum ∧
    (((_calculateSubjectScore md subject).electives.filter (fun e => 0 < e.2)) = []
      → (_calculateSubjectScore md subject).electiveAvg = 0) ∧
    (_calculateSubjectScore [⟨"m", "국어", "언매", 18, none⟩] "국어").electives.map
        (fun e => e.2) = [0, 18] ∧
    (_calculateSubjectScore [⟨"m", "국어", "언매", 18, none⟩] "국어").electiveAvg = 18 := by
  have havg : (_calculateSubjectScore md subject).electiveAvg =
      nonzeroAvg ((_calculateSubjectScore md subject).electives) := rfl
  refine ⟨rfl, ?_, ?_, by decide, ?_⟩
  · rw [havg]
    exact nonzeroAvg_mul_length _
  · intro hnil
    rw [havg]
    exact nonzeroAvg_eq_zero _ hnil
  · simp [_calculateSubjectScore, _getScore, List.find?_cons_of_pos,
      List.find?_cons_of_neg, List.find?_nil, nonzeroAvg]

/-- C4 witness: with no data, no elective is nonzero and the average is 0. -/
theorem claim_C4_witness :
    ((_calculateSubjectScore ([] : List ResultRecord) "국어").electives.filter
        (fun e => 0 < e.2)) = [] ∧
    (_calculateSubjectScore ([] : List ResultRecord) "국어").electiveAvg = 0 :=
  ⟨by decide, (claim_C4 [] "국어").2.2.1 (by decide)⟩

/-- C6: the empty filter is an identity — `getFilteredTotal s [] = s.total` for
every composite score, and every composite score's total is the sum of its five
per-parent fields. -/
theorem claim_C6 (s : CompositeScore) (data : List ResultRecord) (m : String) :
    getFilteredTotal s [] = s.total ∧
    (calculateOverallScore data m).total
      = (calculateOverallScore data m).korean + (calculateOverallScore data m).math
        + (calculateOverallScore data m).english
        + (calculateOverallScore data m).history
        + (calculateOverallScore data m).exploration :=
  ⟨rfl, rfl⟩

/-- C9: missing data is handled totally — a subject/section absent from the
model data scores 0, an empty nonzero-elective set yields average 0 (both for
common-bearing parents and exploration), and a model with no records at all
has total 0. -/
theorem claim_C9 :
    (∀ (md : List ResultRecord) (subject sect : String),
      (∀ r ∈ md, ¬(r.subject = subject ∧ r.sect = sect)) →
        _getScore md subject sect = 0) ∧
    (∀ (md : List ResultRecord) (subject : String),
      ((_calculateSubjectScore md subject).electives.filter (fun e => 0 < e.2)) = [] →
        (_calculateSubjectScore md subject).electiveAvg = 0) ∧
    (∀ md : List ResultRecord,
      ((_calculateExplorationScore md).subjects.filter (fun e => 0 < e.2)) = [] →
        (_calculateExplorationScore md).average = 0) ∧
    (∀ (data : List ResultRecord) (m : String),
      (∀ r ∈ data, r.model_name ≠ m) → (calculateOverallScore data m).total = 0) := by
  refine ⟨?_, ?_, ?_, ?_⟩
  · intro md subject sect h
    unfold _getScore
    have hnone : md.find? (fun d => d.subject == subject && d.sect == sect) = none := by
      rw [List.find?_eq_none]
      intro r hr
      simpa using h r hr
    rw [hnone]
    rfl
  · intro md subject hnil
    have havg : (_calculateSubjectScore md subject).electiveAvg =
        nonzeroAvg ((_calculateSubjectScore md subject).electives) := rfl
    rw [havg]
    exact nonzeroAvg_eq_zero _ hnil
  · intro md hnil
    have havg : (_calculateExplorationScore md).average =
        nonzeroAvg ((_calculateExplorationScore md).subjects) := rfl
    rw [havg]
    exact nonzeroAvg_eq_zero _ hnil
  · intro data m h
    have hmd : getModelData data m = [] := by
      unfold getModelData
      rw [List.filter_eq_nil_iff]
      intro r hr
      simpa using h r hr
    have : (calculateOverallScore data m).total
        = (calculateOverallScore ([] : List ResultRecord) m).total := by
      unfold calculateOverallScore
      rw [hmd]
      rfl
    rw [this]
    simp [calculateOverallScore, _calculateSubjectScore, _calculateExplorationScore,
      _getScore, getModelData, nonzeroAvg]

/-- C9 witness: a dataset whose only record belongs to another model gives the
queried model a total of 0. -/
theorem claim_C9_witness :
    (∀ r ∈ [(⟨"other", "국어", "공통", 76, none⟩ : ResultRecord)],
      r.model_name ≠ "m") ∧
    (calculateOverallScore [⟨"other", "국어", "공통", 76, none⟩] "m").total = 0 :=
  ⟨by decide, claim_C9.2.2.2 _ "m" (by decide)⟩

/-- The maximum-score rules as the claim states them: the empty filter gives
the full hierarchy maximum 450; each bare-parent token contributes its
`SUBJECT_MAX_SCORES` entry (0 when its parent has no hierarchy entry); each
parent that owns surviving elective tokens and is not already present as a bare
token contributes 50 when it is 탐구 with exactly one token, 100 when it is
탐구 with two or more, and its own full maximum otherwise (0 when it has no
hierarchy entry). -/
def specMaxScore (f : List String) : ℚ :=
  if f = [] then 450
  else
    ((f.filter (fun t => !(isCompound t))).map (fun p => objGetD SUBJECT_MAX_SCORES p)).sum
      + ((electiveParents f).map
          (fun p =>
            if p = "탐구" then (if tokenCount f p = 1 then (50 : ℚ) else 100)
            else objGetD SUBJECT_MAX_SCORES p)).sum

/-- C5: `getMaxScore` coincides with the claim's rules on every filter, and the
empty-filter maximum 450 is the sum of every parent's maximum. -/
theorem claim_C5 (f : List String) :
    getMaxScore f = specMaxScore f ∧
    getMaxScore [] = (SUBJECT_MAX_SCORES.map (fun e => e.2)).sum := by
  constructor
  · by_cases hf : f = []
    · subst hf
      rfl
    · have hfe : f.isEmpty = false := by
        cases f with
        | nil => exact absurd rfl hf
        | cons a l => rfl
      rw [getMaxScore_nonempty f hfe]
      unfold specMaxScore
      rw [if_neg hf]
      congr 1
      rw [maxGroup_sum_eq f maxEntry]
      rfl
  · norm_num [getMaxScore, SUBJECT_MAX_SCORES]

theorem tokenFold_inner (t : String) (secs : List (String × SectionUsage)) :
    ∀ acc : ℚ × ℚ,
      secs.foldl
        (fun acc2 kv =>
          if keyMatches kv.1 t then
            (acc2.1 + kv.2.input_tokens, acc2.2 + kv.2.output_tokens)
          else acc2) acc
      = (acc.1 + ((secs.filter (fun kv => keyMatches kv.1 t)).map
            (fun kv => kv.2.input_tokens)).sum,
         acc.2 + ((secs.filter (fun kv => keyMatches kv.1 t)).map
            (fun kv => kv.2.output_tokens)).sum) := by
  induction secs with
  | nil =>
      intro acc
      simp
  | cons kv rest ih =>
      intro acc
      by_cases hk : keyMatches kv.1 t
      · simp only [List.foldl_cons, hk, if_pos, List.filter_cons, List.map_cons,
          List.sum_cons]
        rw [ih]
        simp only [Prod.mk.injEq]
        constructor <;> ring
      · simp only [List.foldl_cons, List.filter_cons, hk, Bool.false_eq_true, if_false]
        exact ih acc

theorem filteredTokens_eq (secs : List (String × SectionUsage)) (f : List String) :
    filteredTokens secs f =
      ((f.map (fun t => ((secs.filter (fun kv => keyMatches kv.1 t)).map
          (fun kv => kv.2.input_tokens)).sum)).sum,
       (f.map (fun t => ((secs.filter (fun kv => keyMatches kv.1 t)).map
          (fun kv => kv.2.output_tokens)).sum)).sum) := by
  unfold filteredTokens
  suffices h : ∀ acc : ℚ × ℚ,
      f.foldl
        (fun acc subject =>
          secs.foldl
            (fun acc2 kv =>
              if keyMatches kv.1 subject then
                (acc2.1 + kv.2.input_tokens, acc2.2 + kv.2.output_tokens)
              else acc2) acc) acc
      = (acc.1 + (f.map (fun t => ((secs.filter (fun kv => keyMatches kv.1 t)).map
            (fun kv => kv.2.input_tokens)).sum)).sum,
         acc.2 + (f.map (fun t => ((secs.filter (fun kv => keyMatches kv.1 t)).map
            (fun kv => kv.2.output_tokens)).sum)).sum) by
    rw [h (0, 0)]
    simp
  induction f with
  | nil =>
      intro acc
      simp
  | cons t ts ih =>
      intro acc
      simp only [List.foldl_cons, List.map_cons, List.sum_cons]
      rw [tokenFold_inner t secs acc, ih]
      simp only [Prod.mk.injEq]
      constructor <;> ring

theorem costRowFor_model (pm : List (String × (ℚ × ℚ)))
    (tu : List (String × ModelUsage)) (f : List String) (sc : CompositeScore) :
    (costRowFor pm tu f sc).model = sc.model := rfl

theorem costRowFor_score (pm : List (String × (ℚ × ℚ)))
    (tu : List (String × ModelUsage)) (f : List String) (sc : CompositeScore) :
    (costRowFor pm tu f sc).score = sc.total := rfl

theorem costRowFor_tokens_none (pm : List (String × (ℚ × ℚ)))
    (tu : List (String × ModelUsage)) (f : List String) (sc : CompositeScore)
    (hf : 0 < f.length) (hn : (lookupUsage tu sc.model).sections = none) :
    (costRowFor pm tu f sc).inputTokens = 0 ∧
    (costRowFor pm tu f sc).outputTokens = 0 := by
  unfold costRowFor
  simp only [hf, if_pos, hn]
  constructor <;> trivial

theorem costRowFor_tokens_some (pm : List (String × (ℚ × ℚ)))
    (tu : List (String × ModelUsage)) (f : List String) (sc : CompositeScore)
    (hf : 0 < f.length) (secs : List (String × SectionUsage))
    (hs : (lookupUsage tu sc.model).sections = some secs) :
    (costRowFor pm tu f sc).inputTokens = (filteredTokens secs f).1 ∧
    (costRowFor pm tu f sc).outputTokens = (filteredTokens secs f).2 := by
  unfold costRowFor
  simp only [hf, if_pos, hs]
  constructor <;> trivial

theorem getCostData_len (data : List ResultRecord) (os : List CompositeScore)
    (tu : List (String × ModelUsage)) (f : List String) :
    (getCostData data os tu f).length = os.length := by
  simp [getCostData]

theorem getCostData_base (data : List ResultRecord) (os : List CompositeScore)
    (tu : List (String × ModelUsage)) (f : List String) (i : ℕ)
    (hi : i < (getCostData data os tu f).length) (hj : i < os.length) :
    (getCostData data os tu f)[i].toCostRowBase
      = costRowFor (buildPriceMap data) tu f os[i] := by
  simp only [getCostData, List.getElem_map]
  by_cases hc : (costRowFor (buildPriceMap data) tu f os[i]).totalCost ≤ 0
  · rw [if_pos hc]
  · rw [if_neg hc]

/-- C7 (counterexample): with the single-elective filter `["국어-화작"]` the code
matches section keys against the token itself, so only the `국어-화작` entry (10
input tokens) is counted — not the 110 tokens that matching against the token's
parent 국어 (including `국어-공통`) would give. -/
theorem claim_C7_counterexample :
    (getCostData []
        [⟨"m", 0, ⟨0, [], 0, 0⟩, 0, ⟨0, [], 0, 0⟩, 0, 0, 0, ⟨[], 0, 0⟩, 0⟩]
        [("m", ⟨0, 0, some [("국어-공통", ⟨100, 50⟩), ("국어-화작", ⟨10, 5⟩)]⟩)]
        ["국어-화작"]).map (fun r => r.inputTokens) = [10] ∧
    (([("국어-공통", (⟨100, 50⟩ : SectionUsage)), ("국어-화작", ⟨10, 5⟩)].filter
        (fun kv => keyMatches kv.1 (parentOf "국어-화작"))).map
      (fun kv => kv.2.input_tokens)).sum = 110 ∧
    (10 : ℚ) ≠ 110 := by
  have hk1 : keyMatches "국어-공통" "국어-화작" = false := by decide
  have hk2 : keyMatches "국어-화작" "국어-화작" = true := by decide
  have hp : parentOf "국어-화작" = "국어" := by decide
  have hk3 : keyMatches "국어-공통" "국어" = true := by decide
  have hk4 : keyMatches "국어-화작" "국어" = true := by decide
  refine ⟨?_, ?_, by norm_num⟩
  · simp [getCostData, costRowFor, buildPriceMap, lookupPrice, lookupUsage, emptyUsage,
      filteredTokens, hk1, hk2, List.find?_cons_of_pos, List.find?_cons_of_neg,
      List.find?_nil]
  · rw [hp]
    simp [hk3, hk4]
    norm_num

/-- C7 (amended): with a non-empty filter, every score row keeps its output row
(same length, same model); a model without a per-section breakdown reports 0
input/output tokens; a model with sections reports, per filter token, the sum
of exactly the section entries whose key equals that token or starts with the
token followed by `"-"` — matching is against the raw token, not its parent. -/
theorem claim_C7 (data : List ResultRecord) (os : List CompositeScore)
    (tu : List (String × ModelUsage)) (f : List String) (hf : f ≠ []) :
    (getCostData data os tu f).length = os.length ∧
    ∀ (i : ℕ) (hi : i < (getCostData data os tu f).length) (hj : i < os.length),
      (getCostData data os tu f)[i].model = os[i].model ∧
      ((lookupUsage tu os[i].model).sections = none →
        (getCostData data os tu f)[i].inputTokens = 0 ∧
        (getCostData data os tu f)[i].outputTokens = 0) ∧
      ∀ secs : List (String × SectionUsage),
        (lookupUsage tu os[i].model).sections = some secs →
        (getCostData data os tu f)[i].inputTokens
            = (f.map (fun t => ((secs.filter (fun kv => keyMatches kv.1 t)).map
                (fun kv => kv.2.input_tokens)).sum)).sum ∧
        (getCostData data os tu f)[i].outputTokens
            = (f.map (fun t => ((secs.filter (fun kv => keyMatches kv.1 t)).map
                (fun kv => kv.2.output_tokens)).sum)).sum := by
  have hflen : 0 < f.length := List.length_pos.mpr hf
  refine ⟨getCostData_len data os tu f, ?_⟩
  intro i hi hj
  have hb := getCostData_base data os tu f i hi hj
  have hm : (getCostData data os tu f)[i].model = os[i].model := by
    rw [hb]
    rfl
  refine ⟨hm, ?_, ?_⟩
  · intro hn
    have h2 := costRowFor_tokens_none (buildPriceMap data) tu f os[i] hflen hn
    constructor
    · rw [hb]
      exact h2.1
    · rw [hb]
      exact h2.2
  · intro secs hs
    have h2 := costRowFor_tokens_some (buildPriceMap data) tu f os[i] hflen secs hs
    have hft := filteredTokens_eq secs f
    constructor
    · rw [hb, h2.1, hft]
    · rw [hb, h2.2, hft]

/-- C7 witness: the amended theorem applied at a concrete non-empty filter. -/
theorem claim_C7_witness :
    ((["국어"] : List String) ≠ []) ∧
    (getCostData []
        [⟨"m", 0, ⟨0, [], 0, 0⟩, 0, ⟨0, [], 0, 0⟩, 0, 0, 0, ⟨[], 0, 0⟩, 0⟩]
        [] ["국어"]).length
      = [(⟨"m", 0, ⟨0, [], 0, 0⟩, 0, ⟨0, [], 0, 0⟩, 0, 0, 0, ⟨[], 0, 0⟩, 0⟩ :
          CompositeScore)].length :=
  ⟨by decide,
    (claim_C7 []
      [⟨"m", 0, ⟨0, [], 0, 0⟩, 0, ⟨0, [], 0, 0⟩, 0, 0, 0, ⟨[], 0, 0⟩, 0⟩]
      [] ["국어"] (by decide)).1⟩

theorem getCostData_totalCosts (data : List ResultRecord) (os : List CompositeScore)
    (tu : List (String × ModelUsage)) (f : List String) :
    (getCostData data os tu f).map (fun r => r.totalCost)
      = os.map (fun sc => (costRowFor (buildPriceMap data) tu f sc).totalCost) := by
  simp only [getCostData, List.map_map]
  apply List.map_congr_left
  intro sc _
  simp only [Function.comp]
  by_cases hc : (costRowFor (buildPriceMap data) tu f sc).totalCost ≤ 0
  · rw [if_pos hc]
  · rw [if_neg hc]

/-- C8 (amended): for every row of getCostData with positive totalCost, the
efficiency equals the 70/30 blend of the clamped score ratio and the inverse
normalized cost, where the normalizing maxCost is the maximum of 1 and all
positive row costs (`Math.max(...positiveCosts, 1)`), not the maximum positive
cost alone. -/
theorem claim_C8 (data : List ResultRecord) (os : List CompositeScore)
    (tu : List (String × ModelUsage)) (f : List String) :
    ∀ r ∈ getCostData data os tu f, 0 < r.totalCost →
      r.efficiency
        = (max 0 (min 1 (r.score / getMaxScore f)) * (7 / 10)
            + (1 - r.totalCost /
                ((((getCostData data os tu f).map (fun r2 => r2.totalCost)).filter
                  (fun c => 0 < c)).foldl max 1)) * (3 / 10)) * 100 := by
  intro r hr hpos
  rw [getCostData_totalCosts data os tu f]
  simp only [getCostData, List.map_map, List.mem_map, Function.comp] at hr
  obtain ⟨sc, hsc, hrw⟩ := hr
  subst hrw
  by_cases hc : (costRowFor (buildPriceMap data) tu f sc).totalCost ≤ 0
  · exfalso
    rw [if_pos hc] at hpos
    exact absurd hpos (not_lt.mpr hc)
  · rw [if_neg hc] at hpos ⊢
    simp only [List.map_map, Function.comp]
    rfl

/-- C8 (counterexample): when every positive cost is below 1 (here a single
row costing $0.5), maxCost is 1, not the maximum observed positive cost: the
code's efficiency is 50, while the claim's formula (with maxCost = 0.5) gives
35. -/
theorem claim_C8_counterexample :
    (getCostData [⟨"m", "영어", "영어", 0, some ⟨some 1, some 0⟩⟩]
        [⟨"m", 0, ⟨0, [], 0, 0⟩, 0, ⟨0, [], 0, 0⟩, 0, 0, 0, ⟨[], 0, 0⟩, 225⟩]
        [("m", ⟨500000, 0, none⟩)] []).map (fun r => (r.totalCost, r.efficiency))
      = [(1/2, 50)] ∧
    (max 0 (min 1 ((225 : ℚ) / getMaxScore [])) * (7 / 10)
        + (1 - ((1 : ℚ)/2) / ((1 : ℚ)/2)) * (3 / 10)) * 100 = 35 ∧
    (50 : ℚ) ≠ 35 := by
  refine ⟨?_, ?_, by norm_num⟩
  · simp [getCostData, costRowFor, buildPriceMap, lookupPrice, lookupUsage, emptyUsage,
      getMaxScore, List.find?_cons_of_pos, List.find?_cons_of_neg, List.find?_nil]
    norm_num [max_def, min_def]
  · have h450 : getMaxScore [] = 450 := rfl
    rw [h450]
    norm_num [max_def, min_def]

/-- C8 witness: the amended efficiency formula applied to the concrete row
costing $0.5. -/
theorem claim_C8_witness :
    (⟨⟨"m", 225, 1, 0, 500000, 0, 1/2⟩, 50⟩ : CostRow) ∈
      getCostData [⟨"m", "영어", "영어", 0, some ⟨some 1, some 0⟩⟩]
        [⟨"m", 0, ⟨0, [], 0, 0⟩, 0, ⟨0, [], 0, 0⟩, 0, 0, 0, ⟨[], 0, 0⟩, 225⟩]
        [("m", ⟨500000, 0, none⟩)] [] ∧
    (0 : ℚ) < (⟨⟨"m", 225, 1, 0, 500000, 0, 1/2⟩, 50⟩ : CostRow).totalCost ∧
    (⟨⟨"m", 225, 1, 0, 500000, 0, 1/2⟩, 50⟩ : CostRow).efficiency
      = (max 0 (min 1 ((⟨⟨"m", 225, 1, 0, 500000, 0, 1/2⟩, 50⟩ : CostRow).score
            / getMaxScore [])) * (7 / 10)
          + (1 - (⟨⟨"m", 225, 1, 0, 500000, 0, 1/2⟩, 50⟩ : CostRow).totalCost /
              ((((getCostData [⟨"m", "영어", "영어", 0, some ⟨some 1, some 0⟩⟩]
                  [⟨"m", 0, ⟨0, [], 0, 0⟩, 0, ⟨0, [], 0, 0⟩, 0, 0, 0, ⟨[], 0, 0⟩, 225⟩]
                  [("m", ⟨500000, 0, none⟩)] []).map (fun r2 => r2.totalCost)).filter
                (fun c => 0 < c)).foldl max 1)) * (3 / 10)) * 100 := by
  have hlist : getCostData [⟨"m", "영어", "영어", 0, some ⟨some 1, some 0⟩⟩]
      [⟨"m", 0, ⟨0, [], 0, 0⟩, 0, ⟨0, [], 0, 0⟩, 0, 0, 0, ⟨[], 0, 0⟩, 225⟩]
      [("m", ⟨500000, 0, none⟩)] []
      = [⟨⟨"m", 225, 1, 0, 500000, 0, 1/2⟩, 50⟩] := by
    simp [getCostData, costRowFor, buildPriceMap, lookupPrice, lookupUsage, emptyUsage,
      getMaxScore, List.find?_cons_of_pos, List.find?_cons_of_neg, List.find?_nil]
    norm_num [max_def, min_def, CostRow.mk.injEq, CostRowBase.mk.injEq]
  have hmem : (⟨⟨"m", 225, 1, 0, 500000, 0, 1/2⟩, 50⟩ : CostRow) ∈
      getCostData [⟨"m", "영어", "영어", 0, some ⟨some 1, some 0⟩⟩]
        [⟨"m", 0, ⟨0, [], 0, 0⟩, 0, ⟨0, [], 0, 0⟩, 0, 0, 0, ⟨[], 0, 0⟩, 225⟩]
        [("m", ⟨500000, 0, none⟩)] [] := by
    rw [hlist]
    exact List.mem_singleton.mpr rfl
  exact ⟨hmem, by norm_num,
    claim_C8 [⟨"m", "영어", "영어", 0, some ⟨some 1, some 0⟩⟩]
      [⟨"m", 0, ⟨0, [], 0, 0⟩, 0, ⟨0, [], 0, 0⟩, 0, 0, 0, ⟨[], 0, 0⟩, 225⟩]
      [("m", ⟨500000, 0, none⟩)] [] _ hmem (by norm_num)⟩

/-- C10: with a non-empty filter, `calculateAllModelScores` is a permutation
of the per-model unfiltered composite scores with only `.total` replaced by the
filtered total (all other fields, details included, unchanged), and its output
is sorted descending by the replaced `.total`. -/
theorem claim_C10 (data : List ResultRecord) (models : List String) (f : List String)
    (hf : f ≠ []) :
    List.Perm (calculateAllModelScores data models f)
      (models.map (fun m =>
        { calculateOverallScore data m with
            total := getFilteredTotal (calculateOverallScore data m) f })) ∧
    (calculateAllModelScores data models f).Pairwise (fun a b => b.total ≤ a.total) := by
  have hlen : 0 < f.length := List.length_pos.mpr hf
  have hpre : models.map (fun model =>
      let scores := calculateOverallScore data model
      if 0 < f.length then { scores with total := getFilteredTotal scores f }
      else scores)
      = models.map (fun m =>
        { calculateOverallScore data m with
            total := getFilteredTotal (calculateOverallScore data m) f }) :=
    List.map_congr_left (fun m _ => by rw [if_pos hlen])
  constructor
  · unfold calculateAllModelScores
    rw [hpre]
    exact List.mergeSort_perm _ _
  · unfold calculateAllModelScores
    have hs := @List.sorted_mergeSort CompositeScore
      (fun a b => decide (b.total ≤ a.total))
      (fun a b c hab hbc => by
        simp only [decide_eq_true_eq] at hab hbc ⊢
        exact le_trans hbc hab)
      (fun a b => by
        simp only [Bool.or_eq_true, decide_eq_true_eq]
        exact le_total b.total a.total)
      (models.map (fun model =>
        let scores := calculateOverallScore data model
        if 0 < f.length then { scores with total := getFilteredTotal scores f }
        else scores))
    exact hs.imp (fun h => by simpa using h)

/-- C10 witness: the theorem applied to a concrete non-empty filter and two
models. -/
theorem claim_C10_witness :
    ((["국어"] : List String) ≠ []) ∧
    (List.Perm (calculateAllModelScores [] ["a", "b"] ["국어"])
      ((["a", "b"] : List String).map (fun m =>
        { calculateOverallScore [] m with
            total := getFilteredTotal (calculateOverallScore [] m) ["국어"] })) ∧
     (calculateAllModelScores [] ["a", "b"] ["국어"]).Pairwise
       (fun a b => b.total ≤ a.total)) :=
  ⟨by decide, claim_C10 [] ["a", "b"] ["국어"] (by decide)⟩
